import Mathlib

/-!
Shallow embedding of `src/FileType.ts` from `mc-project-core`: the
file-type definition data model, the resolution engine `get`, the
template expansion `prefixMatchers`, the placement guesser
`guessFolder`, the plugin registry operations and the convenience
accessors `getId` / `isJsonFile`.

Modelling conventions: the JavaScript union `string | string[]` becomes
`StrOrArr`; `undefined` becomes `Option`; a thrown exception becomes the
`Except.error` branch; JavaScript truthiness of a string is `s != ""`,
of an array it is `true` (also for `[]`), of `undefined` it is `false`.
External collaborators are parameters: micromatch's `isMatch` is a
function argument `isM`, json5's `parse` is abstracted by a success
predicate `parseOk` (the parsed value is never consulted by the code:
the content predicate is commented out in the source), and the
`ProjectConfig` collaborator is a structure holding its
`resolvePackPath` function.  The `JSON Set` used for plugin file types
has reference-identity membership; it is modelled as a list of entries
keyed by a `Nat` reference that is fresh for every insertion.
-/

namespace MCProjectCore

/-- The TypeScript union `string | string[]` that `detect.packType`,
`detect.scope` and `detect.matcher` use. -/
inductive StrOrArr where
  | str (s : String)
  | arr (l : List String)
deriving DecidableEq

/-- The `detect` record of an `IFileType` (`src/FileType.ts`, lines 16-22). -/
structure IDetect where
  packType : Option StrOrArr
  scope : Option StrOrArr
  matcher : Option StrOrArr
  fileContent : Option (List String)
  fileExtensions : Option (List String)
deriving DecidableEq

/-- The `meta` record of an `IFileType` (`src/FileType.ts`, lines 34-37). -/
structure IMeta where
  commandsUseSlash : Option Bool
  language : Option String
deriving DecidableEq

/-- A file-type definition (`IFileType`, `src/FileType.ts` lines 12-44).
Only the fields that the operations under verification read are
modelled; `schema`, `types`, `packSpider`, `lightningCache`,
`definitions`, `formatOnSaveCapable`, `documentation` and
`highlighterConfiguration` are opaque pass-through data never consulted
by `get`, `getIds`, `guessFolder`, `getId` or `isJsonFile`. -/
structure IFileType where
  type : Option String
  id : String
  detect : Option IDetect
  meta : Option IMeta
deriving DecidableEq

/-- External collaborator: the `ProjectConfig` path resolver
(`resolvePackPath(packType?, template)`). -/
structure ProjectConfig where
  resolvePackPath : Option String → String → String

/-- The mutable instance state of the `FileType` class:
`pluginFileTypes` (a JS `Set`, modelled as a list of entries keyed by a
reference number, `nextRef` being the next fresh reference),
`fileTypes` (the ordered built-in sequence) and the optional
`projectConfig`. -/
structure FileTypeState where
  pluginFileTypes : List (Nat × IFileType)
  nextRef : Nat
  fileTypes : List IFileType
  projectConfig : Option ProjectConfig

/-- The file-handle surface consumed by `guessFolder`: a `name` and the
text that the `getFile`/`text` accessors eventually yield. -/
structure FileHandle where
  name : String
  text : String

/-- Split a character list at every occurrence of the separator, the
semantics of JavaScript `String.split` with a single-character
separator. -/
def charSplit (sep : Char) : List Char → List (List Char)
  | [] => [[]]
  | c :: cs =>
    let r := charSplit sep cs
    if c = sep then [] :: r
    else
      match r with
      | [] => [[c]]
      | g :: gs => (c :: g) :: gs

/-- JavaScript `String.startsWith`. -/
def strStartsWith (s p : String) : Bool := p.data.isPrefixOf s.data

/-- JavaScript `String.endsWith`. -/
def strEndsWith (s p : String) : Bool := p.data.reverse.isPrefixOf s.data.reverse

/-- `extname` from `path-browserify`: the extension of the final path
segment, from the last dot to the end; empty when the segment has no
dot, when its only dot is the leading character, or when the segment is
exactly `..`. -/
def extname (path : String) : String :=
  let segs := charSplit '/' path.data
  let base := (segs.filter (fun s => !s.isEmpty)).getLastD []
  if base = ['.', '.'] then ""
  else
    let afterDot := base.reverse.takeWhile (fun c => c != '.')
    if afterDot.length = base.length then ""
    else if afterDot.length + 1 = base.length then ""
    else String.mk ('.' :: afterDot.reverse)

/-- JavaScript truthiness of a possibly-`undefined` `string | string[]`
value: `undefined` and `""` are falsy, every array (also `[]`) is
truthy. -/
def truthyStrOrArr : Option StrOrArr → Bool
  | none => false
  | some (.str s) => s != ""
  | some (.arr _) => true

/-- `Array.isArray(x) ? x : [x!]`: normalise a `string | string[]` to a
list.  The `none` branch mirrors the source's `[undefined!]`, which is
only built when the corresponding truthiness guard already failed, so it
is never observed. -/
def strOrArrToList : Option StrOrArr → List String
  | none => []
  | some (.str s) => [s]
  | some (.arr l) => l

/-- The `packTypes` normalisation of `get` (`src/FileType.ts` lines
105-110): `undefined` becomes `[]`, a single tag becomes a singleton. -/
def packTypesOf (ft : IFileType) : List String :=
  match ft.detect.bind (fun d => d.packType) with
  | none => []
  | some (.str s) => [s]
  | some (.arr l) => l

/-- `prefixMatchers` (`src/FileType.ts` lines 150-169): no project
config means no resolvable templates; an empty pack-type list resolves
each template with no category; otherwise the nested push loop builds
the cross product, outer loop over pack types, inner loop over
templates. -/
def prefixMatchers (cfg : Option ProjectConfig) (packTypes : List String)
    (matchers : List String) : List String :=
  match cfg with
  | none => []
  | some pc =>
    if packTypes.isEmpty then
      matchers.map (fun matcher => pc.resolvePackPath none matcher)
    else
      packTypes.foldl
        (fun acc packType =>
          matchers.foldl (fun acc matcher =>
            acc ++ [pc.resolvePackPath (some packType) matcher]) acc)
        []

/-- The extension filter of `get` (`src/FileType.ts` lines 122-127):
skip when `fileExtensions` is declared, the computed extension is truthy
(non-empty) and not contained in the list. -/
def extSkip (filePath : String) (ft : IFileType) : Bool :=
  match ft.detect.bind (fun d => d.fileExtensions) with
  | some exts => extname filePath != "" && !(exts.contains (extname filePath))
  | none => false

/-- `hasScope` (`src/FileType.ts` line 113): truthiness of
`detect?.scope`. -/
def hasScope (ft : IFileType) : Bool :=
  truthyStrOrArr (ft.detect.bind (fun d => d.scope))

/-- `hasMatcher` (`src/FileType.ts` line 117): truthiness of
`detect?.matcher`. -/
def hasMatcher (ft : IFileType) : Bool :=
  truthyStrOrArr (ft.detect.bind (fun d => d.matcher))

/-- The scope test of `get` (`src/FileType.ts` lines 129-135): the path
starts with some expanded scope template. -/
def scopeMatches (cfg : Option ProjectConfig) (filePath : String)
    (ft : IFileType) : Bool :=
  (prefixMatchers cfg (packTypesOf ft)
      (strOrArrToList (ft.detect.bind (fun d => d.scope)))).any
    (fun sc => strStartsWith filePath sc)

/-- The matcher test of `get` (`src/FileType.ts` lines 136-141):
micromatch `isMatch` against the expanded matcher templates. -/
def matcherMatches (isM : String → List String → Bool)
    (cfg : Option ProjectConfig) (filePath : String) (ft : IFileType) : Bool :=
  isM filePath (prefixMatchers cfg (packTypesOf ft)
    (strOrArrToList (ft.detect.bind (fun d => d.matcher))))

/-- A definition structurally matches a path: it survives the extension
filter and its scope test (or, lacking a truthy scope, its matcher test)
accepts the path.  This is exactly the condition under which the scan of
`get` returns the definition when it reaches it with a path and no
explicit id. -/
def fileTypeMatches (isM : String → List String → Bool)
    (cfg : Option ProjectConfig) (filePath : String) (ft : IFileType) : Bool :=
  !extSkip filePath ft &&
    (if hasScope ft then scopeMatches cfg filePath ft
     else if hasMatcher ft then matcherMatches isM cfg filePath ft
     else false)

/-- The scan loop of `get` (`src/FileType.ts` lines 100-148), one
definition at a time, in built-in order.  `Except.error` models the
thrown `Error`, paired with the offending definition that the source
logs alongside it; `Except.ok none` models falling off the loop and
returning `undefined`. -/
def getLoop (isM : String → List String → Bool) (cfg : Option ProjectConfig)
    (filePath searchFileType : Option String) :
    List IFileType → Except (IFileType × String) (Option IFileType)
  | [] => .ok none
  | ft :: rest =>
    if searchFileType = some ft.id then .ok (some ft)
    else
      match filePath with
      | none => getLoop isM cfg filePath searchFileType rest
      | some fp =>
        if extSkip fp ft then getLoop isM cfg filePath searchFileType rest
        else if hasScope ft then
          (if scopeMatches cfg fp ft then .ok (some ft)
           else getLoop isM cfg filePath searchFileType rest)
        else if hasMatcher ft then
          (if matcherMatches isM cfg fp ft then .ok (some ft)
           else getLoop isM cfg filePath searchFileType rest)
        else .error (ft, "Invalid file definition, no \"detect\" properties")

/-- `FileType.get` (`src/FileType.ts` lines 97-149). -/
def get (isM : String → List String → Bool) (st : FileTypeState)
    (filePath searchFileType : Option String) :
    Except (IFileType × String) (Option IFileType) :=
  getLoop isM st.projectConfig filePath searchFileType st.fileTypes

/-- `FileType.getIds` (`src/FileType.ts` lines 171-179). -/
def getIds (st : FileTypeState) : List String :=
  st.fileTypes.map (fun ft => ft.id)

/-- `addPluginFileType` (`src/FileType.ts` lines 78-84): insert the
definition into the plugin set and hand back the reference that the
returned disposer closes over. -/
def addPluginFileType (st : FileTypeState) (fileDef : IFileType) :
    FileTypeState × Nat :=
  ({ st with
      pluginFileTypes := st.pluginFileTypes ++ [(st.nextRef, fileDef)],
      nextRef := st.nextRef + 1 },
   st.nextRef)

/-- The `dispose` closure returned by `addPluginFileType`
(`src/FileType.ts` line 82): delete the definition the reference
identifies from the plugin set. -/
def disposePlugin (st : FileTypeState) (r : Nat) : FileTypeState :=
  { st with pluginFileTypes := st.pluginFileTypes.filter (fun p => p.1 != r) }

/-- `getPluginFileTypes` (`src/FileType.ts` lines 85-87): snapshot of
the plugin set's values in insertion order. -/
def getPluginFileTypes (st : FileTypeState) : List IFileType :=
  st.pluginFileTypes.map (fun p => p.2)

/-- `setPluginFileTypes` (`src/FileType.ts` lines 88-91): clear the
plugin set and re-add every given definition (each a fresh reference). -/
def setPluginFileTypes (st : FileTypeState) (fileDefs : List IFileType) :
    FileTypeState :=
  { st with
      pluginFileTypes := fileDefs.enum.map (fun p => (st.nextRef + p.1, p.2)),
      nextRef := st.nextRef + fileDefs.length }

/-- The empty `detect` record, the `{}` default of
`const { detect = {} } of this.fileTypes` (`src/FileType.ts` line 198). -/
def emptyDetect : IDetect := ⟨none, none, none, none, none⟩

/-- The `getStartPath` helper of `guessFolder` (`src/FileType.ts` lines
189-194): first entry of the scope (or the scope itself), suffixed with
`/` when missing.  `none` models the `TypeError` of reading `endsWith`
off `scope[0]` when the scope is an empty array. -/
def getStartPath : StrOrArr → Option String
  | .str s => some (if strEndsWith s "/" then s else s ++ "/")
  | .arr [] => none
  | .arr (s :: _) => some (if strEndsWith s "/" then s else s ++ "/")

/-- The extension `guessFolder` derives from the file name
(`src/FileType.ts` line 197): a dot followed by the substring after the
final dot of the name (the whole name when it has no dot). -/
def guessExtension (name : String) : String :=
  "." ++ String.mk ((charSplit '.' name.data).getLastD [])

/-- Phase 1 of `guessFolder` (`src/FileType.ts` lines 196-202): first
definition with a truthy `scope` whose `fileExtensions` contains the
derived extension yields its normalised start path. -/
def guessPhase1 (extension : String) :
    List IFileType → Except String (Option String)
  | [] => .ok none
  | ft :: rest =>
    let d := ft.detect.getD emptyDetect
    if !truthyStrOrArr d.scope then guessPhase1 extension rest
    else if (d.fileExtensions.getD []).contains extension then
      match d.scope with
      | some sc =>
        match getStartPath sc with
        | some p => .ok (some p)
        | none => .error "TypeError"
      | none => guessPhase1 extension rest
    else guessPhase1 extension rest

/-- The type filter of phase 2 of `guessFolder` (`src/FileType.ts` line
216): skip when `type` is a string other than `json`. -/
def typeSkip (ft : IFileType) : Bool :=
  match ft.type with
  | some t => t != "json"
  | none => false

/-- A definition is a phase-2 candidate of `guessFolder`: its `type` is
unspecified or `json`, its `scope` is truthy and it declares
`fileContent` (`src/FileType.ts` lines 215-219). -/
def jsonCandidate (ft : IFileType) : Bool :=
  !typeSkip ft &&
    truthyStrOrArr ((ft.detect.getD emptyDetect).scope) &&
    ((ft.detect.getD emptyDetect).fileContent).isSome

/-- Phase 2 of `guessFolder` (`src/FileType.ts` lines 215-225): the
first phase-2 candidate yields its normalised start path (the
content-hint predicate of the source is commented out, so the parsed
JSON is never consulted). -/
def guessPhase2 : List IFileType → Except String (Option String)
  | [] => .ok none
  | ft :: rest =>
    if typeSkip ft then guessPhase2 rest
    else
      let d := ft.detect.getD emptyDetect
      if !truthyStrOrArr d.scope || d.fileContent.isNone then guessPhase2 rest
      else
        match d.scope with
        | some sc =>
          match getStartPath sc with
          | some p => .ok (some p)
          | none => .error "TypeError"
        | none => guessPhase2 rest

/-- `FileType.guessFolder` (`src/FileType.ts` lines 184-228): phase 1 on
the extension; then, only for `.json` names, parse the content (failure
is caught and becomes no guess) and run phase 2. -/
def guessFolder (parseOk : String → Bool) (st : FileTypeState)
    (fh : FileHandle) : Except String (Option String) :=
  match guessPhase1 (guessExtension fh.name) st.fileTypes with
  | .error e => .error e
  | .ok (some p) => .ok (some p)
  | .ok none =>
    if !strEndsWith fh.name ".json" then .ok none
    else if parseOk fh.text then guessPhase2 st.fileTypes
    else .ok none

/-- `FileType.getId` (`src/FileType.ts` lines 234-236):
`this.get(filePath)?.id ?? 'unknown'`; a thrown resolution error
propagates. -/
def getId (isM : String → List String → Bool) (st : FileTypeState)
    (filePath : String) : Except (IFileType × String) String :=
  match get isM st (some filePath) none with
  | .error e => .error e
  | .ok r => .ok ((r.map (fun ft => ft.id)).getD "unknown")

/-- `FileType.isJsonFile` (`src/FileType.ts` lines 242-245): a truthy
(non-empty) `meta.language` of the resolved definition decides by
comparison with `json`; otherwise the literal `.json` suffix decides. -/
def isJsonFile (isM : String → List String → Bool) (st : FileTypeState)
    (filePath : String) : Except (IFileType × String) Bool :=
  match get isM st (some filePath) none with
  | .error e => .error e
  | .ok r =>
    match r.bind (fun ft => ft.meta.bind (fun m => m.language)) with
    | some language =>
      .ok (if language != "" then language == "json"
           else strEndsWith filePath ".json")
    | none => .ok (strEndsWith filePath ".json")

/-- The scan of `get` walks past a definition without returning and
without throwing: the explicit id does not hit it, and it is either
skipped by the extension filter or is structurally valid (truthy `scope`
or `matcher`) but fails its detection test. -/
def passesBy (isM : String → List String → Bool) (cfg : Option ProjectConfig)
    (fp : String) (searchFileType : Option String) (ft : IFileType) : Prop :=
  searchFileType ≠ some ft.id ∧
    (extSkip fp ft = true ∨
      ((hasScope ft = true ∨ hasMatcher ft = true) ∧
        fileTypeMatches isM cfg fp ft = false))

instance (isM : String → List String → Bool) (cfg : Option ProjectConfig)
    (fp : String) (sft : Option String) (ft : IFileType) :
    Decidable (passesBy isM cfg fp sft ft) := by
  unfold passesBy; infer_instance

/-! Concrete fixtures used by the witnesses and counterexamples. -/

/-- A path resolver that returns each template unchanged when no pack
type is given and tags it with the pack type otherwise. -/
def idResolver : ProjectConfig :=
  ⟨fun pt m => match pt with | none => m | some t => t ++ "/" ++ m⟩

/-- A glob collaborator that never matches (the fixtures below always
detect by scope). -/
def noGlob : String → List String → Bool := fun _ _ => false

/-- Fixture: a state with no definitions at all. -/
def stEmpty : FileTypeState := ⟨[], 0, [], some idResolver⟩

/-- Fixture for C1: two definitions whose scopes both match the probe
path. -/
def dPrio1 : IFileType :=
  ⟨none, "first", some ⟨none, some (.str "packs/behavior"), none, none, none⟩, none⟩

/-- Fixture for C1: the later of the two matching definitions. -/
def dPrio2 : IFileType :=
  ⟨none, "second", some ⟨none, some (.str "packs/"), none, none, none⟩, none⟩

/-- Fixture state for C1. -/
def stPrio : FileTypeState := ⟨[], 0, [dPrio1, dPrio2], some idResolver⟩

/-- Fixture for C2: a definition declaring `fileExtensions` `[".json"]`
and a scope. -/
def dExt : IFileType :=
  ⟨none, "a", some ⟨none, some (.str "packs/"), none, none, some [".json"]⟩, none⟩

/-- Fixture state for C2. -/
def stC2 : FileTypeState := ⟨[], 0, [dExt], some idResolver⟩

/-- Fixture for C3: an early definition matching `packs/` paths by
scope. -/
def dScopeA : IFileType :=
  ⟨none, "a", some ⟨none, some (.str "packs/"), none, none, none⟩, none⟩

/-- Fixture for C3: a later definition with id `b`. -/
def dIdB : IFileType :=
  ⟨none, "b", some ⟨none, some (.str "other/"), none, none, none⟩, none⟩

/-- Fixture state for C3. -/
def stC3 : FileTypeState := ⟨[], 0, [dScopeA, dIdB], some idResolver⟩

/-- Fixture for C4: a definition the extension filter skips for `.json`
paths. -/
def dSkipTxt : IFileType :=
  ⟨none, "skip", some ⟨none, some (.str "p/"), none, none, some [".txt"]⟩, none⟩

/-- Fixture for C4: an invalid definition with no `detect` properties. -/
def dBad : IFileType := ⟨none, "bad", none, none⟩

/-- Fixture state for C4. -/
def stC4 : FileTypeState := ⟨[], 0, [dSkipTxt, dBad], some idResolver⟩

/-- Fixture for C7: a pre-existing plugin definition. -/
def dOther : IFileType := ⟨none, "other", none, none⟩

/-- Fixture state for C7, with one plugin entry already present. -/
def stC7 : FileTypeState := ⟨[(0, dOther)], 1, [], none⟩

/-- Fixture for C8 (spec Example 3): a `json` definition with scope
`packs/behavior/loot_tables` and a `fileContent` hint. -/
def dLoot : IFileType :=
  ⟨some "json", "loot",
   some ⟨none, some (.str "packs/behavior/loot_tables"), none, some ["pools"], none⟩,
   none⟩

/-- Fixture state for C8. -/
def stLoot : FileTypeState := ⟨[], 0, [dLoot], some idResolver⟩

/-- Fixture for C10: a matching definition declaring `meta.language` as
the empty string. -/
def dLang : IFileType :=
  ⟨none, "lang", some ⟨none, some (.str "p/"), none, none, none⟩,
   some ⟨none, some ""⟩⟩

/-- Fixture state for the C10 counterexample. -/
def stLang : FileTypeState := ⟨[], 0, [dLang], some idResolver⟩

/-- Fixture for C10 (spec Example 5): a matching definition declaring
`meta.language` as `plaintext`. -/
def dPlain : IFileType :=
  ⟨none, "plain", some ⟨none, some (.str "p/"), none, none, none⟩,
   some ⟨none, some "plaintext"⟩⟩

/-- Fixture state for the amended C10 witness. -/
def stPlain : FileTypeState := ⟨[], 0, [dPlain], some idResolver⟩

/-! Helper lemmas about the scan loop of `get`. -/

/-- With a path, no explicit id and only structurally valid definitions
(truthy `scope` or `matcher`), the scan returns exactly the first
structurally matching definition. -/
theorem getLoop_eq_find (isM : String → List String → Bool)
    (cfg : Option ProjectConfig) (fp : String) :
    ∀ fts : List IFileType,
      (∀ ft ∈ fts, hasScope ft = true ∨ hasMatcher ft = true) →
      getLoop isM cfg (some fp) none fts =
        .ok (fts.find? (fileTypeMatches isM cfg fp)) := by
  intro fts
  induction fts with
  | nil => intro _; rfl
  | cons ft rest ih =>
    intro hvalid
    have hft := hvalid ft (List.mem_cons_self ft rest)
    have ihr := ih (fun x hx => hvalid x (List.mem_cons_of_mem ft hx))
    have hid : ¬((none : Option String) = some ft.id) := fun h =>
      Option.noConfusion h
    cases hskip : extSkip fp ft with
    | true =>
      have hm : ¬(fileTypeMatches isM cfg fp ft = true) := by
        simp [fileTypeMatches, hskip]
      rw [List.find?_cons_of_neg _ hm]
      simp [getLoop, hid, hskip, ihr]
    | false =>
      cases hs : hasScope ft with
      | true =>
        cases hsm : scopeMatches cfg fp ft with
        | true =>
          have hm : fileTypeMatches isM cfg fp ft = true := by
            simp [fileTypeMatches, hskip, hs, hsm]
          rw [List.find?_cons_of_pos _ hm]
          simp [getLoop, hid, hskip, hs, hsm]
        | false =>
          have hm : ¬(fileTypeMatches isM cfg fp ft = true) := by
            simp [fileTypeMatches, hskip, hs, hsm]
          rw [List.find?_cons_of_neg _ hm]
          simp [getLoop, hid, hskip, hs, hsm, ihr]
      | false =>
        have hmt : hasMatcher ft = true := by
          rcases hft with h | h
          · rw [hs] at h; exact absurd h Bool.false_ne_true
          · exact h
        cases hmm : matcherMatches isM cfg fp ft with
        | true =>
          have hm : fileTypeMatches isM cfg fp ft = true := by
            simp [fileTypeMatches, hskip, hs, hmt, hmm]
          rw [List.find?_cons_of_pos _ hm]
          simp [getLoop, hid, hskip, hs, hmt, hmm]
        | false =>
          have hm : ¬(fileTypeMatches isM cfg fp ft = true) := by
            simp [fileTypeMatches, hskip, hs, hmt, hmm]
          rw [List.find?_cons_of_neg _ hm]
          simp [getLoop, hid, hskip, hs, hmt, hmm, ihr]

/-- The scan of `get` is unchanged by dropping a leading block of
definitions it walks past. -/
theorem getLoop_append_of_passes (isM : String → List String → Bool)
    (cfg : Option ProjectConfig) (fp : String) (sft : Option String) :
    ∀ (pre rest : List IFileType),
      (∀ ft ∈ pre, passesBy isM cfg fp sft ft) →
      getLoop isM cfg (some fp) sft (pre ++ rest) =
        getLoop isM cfg (some fp) sft rest := by
  intro pre
  induction pre with
  | nil => intro rest _; rfl
  | cons ft pre ih =>
    intro rest hpass
    obtain ⟨hid, hcase⟩ := hpass ft (List.mem_cons_self ft pre)
    have ihr := ih rest (fun x hx => hpass x (List.mem_cons_of_mem ft hx))
    cases hskip : extSkip fp ft with
    | true => simp [getLoop, hid, hskip, ihr]
    | false =>
      rcases hcase with h | ⟨hvalid, hmatch⟩
      · rw [hskip] at h; exact absurd h Bool.false_ne_true
      cases hs : hasScope ft with
      | true =>
        have hsm : scopeMatches cfg fp ft = false := by
          simpa [fileTypeMatches, hskip, hs] using hmatch
        simp [getLoop, hid, hskip, hs, hsm, ihr]
      | false =>
        have hmt : hasMatcher ft = true := by
          rcases hvalid with h | h
          · rw [hs] at h; exact absurd h Bool.false_ne_true
          · exact h
        have hmm : matcherMatches isM cfg fp ft = false := by
          simpa [fileTypeMatches, hskip, hs, hmt] using hmatch
        simp [getLoop, hid, hskip, hs, hmt, hmm, ihr]

/-- Any definition the scan of `get` returns for a path (with no
explicit id) was not skipped by the extension filter. -/
theorem getLoop_ok_some_not_extSkip (isM : String → List String → Bool)
    (cfg : Option ProjectConfig) (fp : String) :
    ∀ (fts : List IFileType) (d : IFileType),
      getLoop isM cfg (some fp) none fts = .ok (some d) →
      extSkip fp d = false := by
  intro fts
  induction fts with
  | nil => intro d h; simp [getLoop] at h
  | cons ft rest ih =>
    intro d h
    have hid : ¬((none : Option String) = some ft.id) := fun hc =>
      Option.noConfusion hc
    rw [show getLoop isM cfg (some fp) none (ft :: rest) =
        (if extSkip fp ft then getLoop isM cfg (some fp) none rest
         else if hasScope ft then
           (if scopeMatches cfg fp ft then .ok (some ft)
            else getLoop isM cfg (some fp) none rest)
         else if hasMatcher ft then
           (if matcherMatches isM cfg fp ft then .ok (some ft)
            else getLoop isM cfg (some fp) none rest)
         else .error (ft, "Invalid file definition, no \"detect\" properties"))
      from by simp [getLoop, hid]] at h
    cases hskip : extSkip fp ft with
    | true => rw [hskip] at h; exact ih d (by simpa using h)
    | false =>
      rw [hskip] at h
      simp only [Bool.false_eq_true, if_false] at h
      cases hs : hasScope ft with
      | true =>
        rw [hs] at h
        simp only [if_true] at h
        cases hsm : scopeMatches cfg fp ft with
        | true =>
          rw [hsm] at h
          simp only [if_true] at h
          have : ft = d := by
            injection h with h1
            injection h1
          rw [← this]; exact hskip
        | false => rw [hsm] at h; exact ih d (by simpa using h)
      | false =>
        rw [hs] at h
        simp only [Bool.false_eq_true, if_false] at h
        cases hmt : hasMatcher ft with
        | true =>
          rw [hmt] at h
          simp only [if_true] at h
          cases hmm : matcherMatches isM cfg fp ft with
          | true =>
            rw [hmm] at h
            simp only [if_true] at h
            have : ft = d := by
              injection h with h1
              injection h1
            rw [← this]; exact hskip
          | false => rw [hmm] at h; exact ih d (by simpa using h)
        | false => rw [hmt] at h; simp at h

/-- Pushing each mapped element onto an accumulator is appending the
mapped list. -/
theorem foldl_push_eq_append_map {α β : Type} (g : α → β) :
    ∀ (ms : List α) (acc : List β),
      ms.foldl (fun a m => a ++ [g m]) acc = acc ++ ms.map g := by
  intro ms
  induction ms with
  | nil => intro acc; simp
  | cons m ms ih => intro acc; simp [ih]

/-- The nested push loop of `prefixMatchers` builds the cross product,
outer loop over pack types, inner loop over templates. -/
theorem prefix_fold_eq_bind (pc : ProjectConfig) (ms : List String) :
    ∀ (pts : List String) (acc : List String),
      pts.foldl
          (fun a pt => ms.foldl
            (fun a m => a ++ [pc.resolvePackPath (some pt) m]) a) acc =
        acc ++ pts.flatMap
          (fun pt => ms.map (fun m => pc.resolvePackPath (some pt) m)) := by
  intro pts
  induction pts with
  | nil => intro acc; simp
  | cons pt pts ih =>
    intro acc
    rw [List.foldl_cons,
      foldl_push_eq_append_map (fun m => pc.resolvePackPath (some pt) m) ms acc,
      ih]
    simp [List.flatMap_cons]

/-- Length of the cross product list. -/
theorem bind_map_length {α β γ : Type} (f : α → β → γ) :
    ∀ (pts : List α) (ms : List β),
      (pts.flatMap (fun pt => ms.map (f pt))).length =
        pts.length * ms.length := by
  intro pts ms
  induction pts with
  | nil => simp
  | cons pt pts ih => simp [List.flatMap_cons, ih, Nat.succ_mul]; omega

/-- Phase 2 of `guessFolder` returns the normalised start path of the
first phase-2 candidate, the `TypeError` when that candidate's scope is
an empty array, and no guess when there is no candidate. -/
theorem guessPhase2_eq_find :
    ∀ fts : List IFileType,
      guessPhase2 fts =
        match fts.find? jsonCandidate with
        | none => .ok none
        | some ft =>
          match (ft.detect.getD emptyDetect).scope with
          | none => .ok none
          | some sc =>
            match getStartPath sc with
            | some p => .ok (some p)
            | none => .error "TypeError" := by
  intro fts
  induction fts with
  | nil => rfl
  | cons ft rest ih =>
    cases hts : typeSkip ft with
    | true =>
      have hc : ¬(jsonCandidate ft = true) := by simp [jsonCandidate, hts]
      rw [List.find?_cons_of_neg _ hc] at *
      simpa [guessPhase2, hts] using ih
    | false =>
      cases htr : truthyStrOrArr ((ft.detect.getD emptyDetect).scope) with
      | false =>
        have hc : ¬(jsonCandidate ft = true) := by simp [jsonCandidate, hts, htr]
        rw [List.find?_cons_of_neg _ hc]
        simpa [guessPhase2, hts, htr] using ih
      | true =>
        cases hfc : (ft.detect.getD emptyDetect).fileContent with
        | none =>
          have hc : ¬(jsonCandidate ft = true) := by
            simp [jsonCandidate, hts, htr, hfc]
          rw [List.find?_cons_of_neg _ hc]
          simpa [guessPhase2, hts, htr, hfc] using ih
        | some l =>
          have hc : jsonCandidate ft = true := by
            simp [jsonCandidate, hts, htr, hfc]
          rw [List.find?_cons_of_pos _ hc]
          cases hsc : (ft.detect.getD emptyDetect).scope with
          | none => rw [hsc] at htr; simp [truthyStrOrArr] at htr
          | some sc =>
            rw [hsc] at htr
            simp [guessPhase2, hts, htr, hfc, hsc]

/-- Deleting the same reference from the plugin set twice is the same
as deleting it once. -/
theorem disposePlugin_idem (st : FileTypeState) (r : Nat) :
    disposePlugin (disposePlugin st r) r = disposePlugin st r := by
  unfold disposePlugin
  simp [List.filter_filter]

/-! The claims. -/

/-- C1 (priority law): for every built-in sequence of structurally valid
definitions (each declares a truthy `scope` or `matcher`, the §3
data-model invariant) and every path, `get(path)` returns exactly the
first structurally matching definition of the sequence — so when two
definitions both match, the one appearing earlier wins, even if a later
definition would also match. -/
theorem claim_C1_priority_law (isM : String → List String → Bool)
    (st : FileTypeState) (fp : String)
    (hvalid : ∀ ft ∈ st.fileTypes, hasScope ft = true ∨ hasMatcher ft = true) :
    get isM st (some fp) none =
      .ok (st.fileTypes.find? (fileTypeMatches isM st.projectConfig fp)) :=
  getLoop_eq_find isM st.projectConfig fp st.fileTypes hvalid

/-- Witness for C1: both fixture definitions structurally match the
probe path and `get` resolves to the first of them. -/
theorem claim_C1_priority_law_witness :
    fileTypeMatches noGlob stPrio.projectConfig "packs/behavior/entities/x.json" dPrio1 = true ∧
    fileTypeMatches noGlob stPrio.projectConfig "packs/behavior/entities/x.json" dPrio2 = true ∧
    get noGlob stPrio (some "packs/behavior/entities/x.json") none = .ok (some dPrio1) :=
  ⟨by decide, by decide,
   (claim_C1_priority_law noGlob stPrio "packs/behavior/entities/x.json"
     (by decide)).trans rfl⟩

/-- Counterexample to C2 as stated: `dExt` declares the non-empty
`fileExtensions` list `[".json"]`, the probe path `packs/x` has no dot
so its computed extension is the empty string, which is absent from the
list — yet `get` returns `dExt`, because the source only applies the
filter when the computed extension is truthy (non-empty). -/
theorem claim_C2_extension_filter_counterexample :
    extname "packs/x" = "" ∧
    extname "packs/x" ∉ ([".json"] : List String) ∧
    dExt.detect.bind (fun d => d.fileExtensions) = some [".json"] ∧
    get noGlob stC2 (some "packs/x") none = .ok (some dExt) :=
  ⟨by decide, by decide, rfl, rfl⟩

/-- C2 as amended: for every definition with declared (non-empty)
`fileExtensions` and every path whose computed extension is non-empty,
`get(path)` only returns that definition when the extension is in the
list. -/
theorem claim_C2_extension_filter_amended (isM : String → List String → Bool)
    (st : FileTypeState) (fp : String) (d : IFileType) (exts : List String)
    (hres : get isM st (some fp) none = .ok (some d))
    (hexts : d.detect.bind (fun dd => dd.fileExtensions) = some exts)
    (_hnonempty : exts ≠ [])
    (hext : extname fp ≠ "") :
    extname fp ∈ exts := by
  have hskip :=
    getLoop_ok_some_not_extSkip isM st.projectConfig fp st.fileTypes d hres
  simp [extSkip, hexts, hext] at hskip
  exact hskip

/-- Witness for the amended C2: `dExt` is returned for `packs/a.json`,
whose extension `.json` is in the declared list. -/
theorem claim_C2_extension_filter_amended_witness :
    get noGlob stC2 (some "packs/a.json") none = .ok (some dExt) ∧
    extname "packs/a.json" ∈ ([".json"] : List String) :=
  ⟨rfl,
   claim_C2_extension_filter_amended noGlob stC2 "packs/a.json" dExt [".json"]
     rfl rfl (by decide) (by decide)⟩

/-- Counterexample to C3 as stated: `dIdB` with id `b` is in the
built-in sequence, yet `get("packs/x.json", "b")` returns the earlier
definition `dScopeA` (id `a`), because the per-definition id check is
interleaved with detection and an earlier definition matching the path
by scope preempts the requested id. -/
theorem claim_C3_identity_override_counterexample :
    dIdB ∈ stC3.fileTypes ∧ dIdB.id = "b" ∧
    get noGlob stC3 (some "packs/x.json") (some "b") = .ok (some dScopeA) ∧
    dScopeA.id ≠ "b" :=
  ⟨by decide, rfl, rfl, by decide⟩

/-- C3 as amended: `get(path, id)` returns the definition carrying `id`
provided no definition before it in the sequence carries that id or
structurally matches the path (each earlier definition being valid);
the returned definition's own detection logic is bypassed entirely. -/
theorem claim_C3_identity_override_amended (isM : String → List String → Bool)
    (st : FileTypeState) (fp sid : String) (pre : List IFileType)
    (ft : IFileType) (post : List IFileType)
    (hsplit : st.fileTypes = pre ++ ft :: post)
    (hid : ft.id = sid)
    (hpre : ∀ x ∈ pre, sid ≠ x.id ∧
      (hasScope x = true ∨ hasMatcher x = true) ∧
      fileTypeMatches isM st.projectConfig fp x = false) :
    get isM st (some fp) (some sid) = .ok (some ft) := by
  unfold get
  rw [hsplit, getLoop_append_of_passes isM st.projectConfig fp (some sid) pre
    (ft :: post) (fun x hx => by
      obtain ⟨h1, h2, h3⟩ := hpre x hx
      exact ⟨fun hc => h1 (Option.some.inj hc), Or.inr ⟨h2, h3⟩⟩)]
  simp [getLoop, hid]

/-- Witness for the amended C3: with a probe path the earlier definition
does not match, the requested id `b` resolves to `dIdB`. -/
theorem claim_C3_identity_override_amended_witness :
    get noGlob stC3 (some "z/x") (some "b") = .ok (some dIdB) :=
  claim_C3_identity_override_amended noGlob stC3 "z/x" "b" [dScopeA] dIdB []
    rfl rfl (by decide)

/-- C4 (fatal-config law): when the scan of `get` with a path reaches a
definition lacking both a truthy `scope` and a truthy `matcher` — it is
not returned by the id check, not skipped by the extension filter, and
every earlier definition is walked past — resolution aborts with the
error identifying the offending definition instead of silently
continuing. -/
theorem claim_C4_fatal_config (isM : String → List String → Bool)
    (st : FileTypeState) (fp : String) (sft : Option String)
    (pre : List IFileType) (ft : IFileType) (post : List IFileType)
    (hsplit : st.fileTypes = pre ++ ft :: post)
    (hnoscope : hasScope ft = false)
    (hnomatcher : hasMatcher ft = false)
    (hnoskip : extSkip fp ft = false)
    (hnotid : sft ≠ some ft.id)
    (hpre : ∀ x ∈ pre, passesBy isM st.projectConfig fp sft x) :
    get isM st (some fp) sft =
      .error (ft, "Invalid file definition, no \"detect\" properties") := by
  unfold get
  rw [hsplit,
    getLoop_append_of_passes isM st.projectConfig fp sft pre (ft :: post) hpre]
  simp [getLoop, hnotid, hnoskip, hnoscope, hnomatcher]

/-- Witness for C4: the first fixture definition is skipped by the
extension filter and the scan then aborts on the invalid `dBad`. -/
theorem claim_C4_fatal_config_witness :
    get noGlob stC4 (some "a.json") none =
      .error (dBad, "Invalid file definition, no \"detect\" properties") :=
  claim_C4_fatal_config noGlob stC4 "a.json" none [dSkipTxt] dBad []
    rfl rfl rfl rfl (by decide) (by decide)

/-- C5 (plugin separation / frame law): `get`, `getIds` and
`guessFolder` read only the built-in sequence (and project config);
`addPluginFileType`, `setPluginFileTypes` and the disposer leave the
built-in sequence — and hence all three results — unchanged. -/
theorem claim_C5_plugin_separation (isM : String → List String → Bool)
    (pOk : String → Bool) (st : FileTypeState) (d : IFileType)
    (defs : List IFileType) (r : Nat) (fp sft : Option String)
    (fh : FileHandle) :
    ((addPluginFileType st d).1.fileTypes = st.fileTypes ∧
     get isM (addPluginFileType st d).1 fp sft = get isM st fp sft ∧
     getIds (addPluginFileType st d).1 = getIds st ∧
     guessFolder pOk (addPluginFileType st d).1 fh = guessFolder pOk st fh) ∧
    ((setPluginFileTypes st defs).fileTypes = st.fileTypes ∧
     get isM (setPluginFileTypes st defs) fp sft = get isM st fp sft ∧
     getIds (setPluginFileTypes st defs) = getIds st ∧
     guessFolder pOk (setPluginFileTypes st defs) fh = guessFolder pOk st fh) ∧
    ((disposePlugin st r).fileTypes = st.fileTypes ∧
     get isM (disposePlugin st r) fp sft = get isM st fp sft ∧
     getIds (disposePlugin st r) = getIds st ∧
     guessFolder pOk (disposePlugin st r) fh = guessFolder pOk st fh) :=
  ⟨⟨rfl, rfl, rfl, rfl⟩, ⟨rfl, rfl, rfl, rfl⟩, ⟨rfl, rfl, rfl, rfl⟩⟩

/-- C6 (template-expansion law): with no project config the expansion is
empty; with an empty category list it is one category-less expansion per
template; with a non-empty category list it is exactly one expansion per
(category, template) pair, outer loop over categories in listed order,
inner loop over templates — in particular of length
`|categories| * |templates|`. -/
theorem claim_C6_template_expansion (pc : ProjectConfig)
    (packTypes matchers : List String) :
    prefixMatchers none packTypes matchers = [] ∧
    prefixMatchers (some pc) [] matchers =
      matchers.map (fun m => pc.resolvePackPath none m) ∧
    (packTypes ≠ [] →
      prefixMatchers (some pc) packTypes matchers =
        packTypes.flatMap
          (fun pt => matchers.map (fun m => pc.resolvePackPath (some pt) m))) ∧
    (packTypes ≠ [] →
      (prefixMatchers (some pc) packTypes matchers).length =
        packTypes.length * matchers.length) := by
  have hcross : packTypes ≠ [] →
      prefixMatchers (some pc) packTypes matchers =
        packTypes.flatMap
          (fun pt => matchers.map (fun m => pc.resolvePackPath (some pt) m)) := by
    intro hne
    simp only [prefixMatchers]
    rw [if_neg (by simpa using hne)]
    simpa using prefix_fold_eq_bind pc matchers packTypes []
  refine ⟨rfl, rfl, hcross, ?_⟩
  intro hne
  rw [hcross hne]
  exact bind_map_length (fun pt m => pc.resolvePackPath (some pt) m)
    packTypes matchers

/-- Witness for C6: a two-category, two-template expansion is the
ordered cross product of length four. -/
theorem claim_C6_template_expansion_witness :
    prefixMatchers (some idResolver) ["bp", "rp"] ["m1", "m2"] =
      ["bp", "rp"].flatMap
        (fun pt => ["m1", "m2"].map
          (fun m => idResolver.resolvePackPath (some pt) m)) ∧
    (prefixMatchers (some idResolver) ["bp", "rp"] ["m1", "m2"]).length = 4 :=
  ⟨(claim_C6_template_expansion idResolver ["bp", "rp"] ["m1", "m2"]).2.2.1
     (by decide),
   ((claim_C6_template_expansion idResolver ["bp", "rp"] ["m1", "m2"]).2.2.2
     (by decide)).trans (by decide)⟩

/-- C7 (disposal law): under the registry invariant that every plugin
entry's reference is below `nextRef`, adding a definition and invoking
the returned disposer removes exactly the added entry — the plugin
collection returns to its previous value, so every other plugin
definition remains — and invoking the same disposer a second time is a
no-op. -/
theorem claim_C7_disposal (st : FileTypeState) (d : IFileType)
    (hkeys : ∀ p ∈ st.pluginFileTypes, p.1 < st.nextRef) :
    ((addPluginFileType st d).2, d) ∈ (addPluginFileType st d).1.pluginFileTypes ∧
    (disposePlugin (addPluginFileType st d).1
        (addPluginFileType st d).2).pluginFileTypes = st.pluginFileTypes ∧
    ((addPluginFileType st d).2, d) ∉
      (disposePlugin (addPluginFileType st d).1
        (addPluginFileType st d).2).pluginFileTypes ∧
    disposePlugin
        (disposePlugin (addPluginFileType st d).1 (addPluginFileType st d).2)
        (addPluginFileType st d).2 =
      disposePlugin (addPluginFileType st d).1 (addPluginFileType st d).2 := by
  have hfilter : st.pluginFileTypes.filter (fun p => p.1 != st.nextRef) =
      st.pluginFileTypes := by
    rw [List.filter_eq_self]
    intro p hp
    have := hkeys p hp
    simp [Nat.ne_of_lt this]
  have hdisp : (disposePlugin (addPluginFileType st d).1
      (addPluginFileType st d).2).pluginFileTypes = st.pluginFileTypes := by
    show ((st.pluginFileTypes ++ [(st.nextRef, d)]).filter
      (fun p => p.1 != st.nextRef)) = st.pluginFileTypes
    rw [List.filter_append, hfilter]
    simp
  refine ⟨by simp [addPluginFileType], hdisp, ?_,
    disposePlugin_idem (addPluginFileType st d).1 (addPluginFileType st d).2⟩
  rw [hdisp]
  intro hmem
  have := hkeys _ hmem
  simp [addPluginFileType] at this

/-- Witness for C7: with one pre-existing plugin entry, add-then-dispose
restores the collection and a second dispose changes nothing. -/
theorem claim_C7_disposal_witness :
    (disposePlugin (addPluginFileType stC7 dBad).1
        (addPluginFileType stC7 dBad).2).pluginFileTypes =
      stC7.pluginFileTypes ∧
    disposePlugin
        (disposePlugin (addPluginFileType stC7 dBad).1
          (addPluginFileType stC7 dBad).2)
        (addPluginFileType stC7 dBad).2 =
      disposePlugin (addPluginFileType stC7 dBad).1
        (addPluginFileType stC7 dBad).2 :=
  ⟨(claim_C7_disposal stC7 dBad (by decide)).2.1,
   (claim_C7_disposal stC7 dBad (by decide)).2.2.2⟩

/-- C8 (placement-guess phase 2): for a `.json` file name on which phase
1 found nothing, a parse failure yields no guess (no exception); on
parse success the result is the normalised first scope entry of the
first built-in definition whose `type` is unspecified or `json` and that
declares a truthy `scope` and `fileContent` — the parsed content is
never inspected — and no guess when no such definition exists. -/
theorem claim_C8_placement_guess_phase2 (pOk : String → Bool)
    (st : FileTypeState) (fh : FileHandle)
    (hjson : strEndsWith fh.name ".json" = true)
    (hphase1 : guessPhase1 (guessExtension fh.name) st.fileTypes = .ok none) :
    (pOk fh.text = false → guessFolder pOk st fh = .ok none) ∧
    (pOk fh.text = true → st.fileTypes.find? jsonCandidate = none →
      guessFolder pOk st fh = .ok none) ∧
    (∀ ft sc p, pOk fh.text = true →
      st.fileTypes.find? jsonCandidate = some ft →
      (ft.detect.getD emptyDetect).scope = some sc →
      getStartPath sc = some p →
      guessFolder pOk st fh = .ok (some p)) := by
  refine ⟨?_, ?_, ?_⟩
  · intro hp
    unfold guessFolder
    rw [hphase1]
    simp [hjson, hp]
  · intro hp hfind
    unfold guessFolder
    rw [hphase1]
    simp [hjson, hp, guessPhase2_eq_find, hfind]
  · intro ft sc p hp hfind hsc hsp
    unfold guessFolder
    rw [hphase1]
    simp [hjson, hp, guessPhase2_eq_find, hfind, hsc, hsp]

/-- Witness for C8 (spec Example 3): `loot_table.json` with parseable
content guesses `packs/behavior/loot_tables/`. -/
theorem claim_C8_placement_guess_phase2_witness :
    guessFolder (fun _ => true) stLoot ⟨"loot_table.json", "x"⟩ =
      .ok (some "packs/behavior/loot_tables/") :=
  (claim_C8_placement_guess_phase2 (fun _ => true) stLoot
      ⟨"loot_table.json", "x"⟩ (by decide) rfl).2.2
    dLoot (.str "packs/behavior/loot_tables") "packs/behavior/loot_tables/"
    rfl rfl rfl rfl

/-- C9 (getId sentinel law): `getId(path)` returns the id of the
definition `get(path)` resolves, and the sentinel `unknown` when
resolution completes without a match — an unmatched path never raises. -/
theorem claim_C9_getId_sentinel (isM : String → List String → Bool)
    (st : FileTypeState) (fp : String) :
    (get isM st (some fp) none = .ok none →
      getId isM st fp = .ok "unknown") ∧
    (∀ ft, get isM st (some fp) none = .ok (some ft) →
      getId isM st fp = .ok ft.id) := by
  constructor
  · intro h; simp [getId, h]
  · intro ft h; simp [getId, h]

/-- Witness for C9 (spec Example 4): an unregistered path yields the
sentinel. -/
theorem claim_C9_getId_sentinel_witness :
    getId noGlob stEmpty "unregistered/path/file.xyz" = .ok "unknown" :=
  (claim_C9_getId_sentinel noGlob stEmpty "unregistered/path/file.xyz").1 rfl

/-- Counterexample to C10 as stated: `dLang` matches `p/a.json` and
declares `meta.language` as the empty string; the claim then demands
`isJsonFile` return `"" == "json"`, i.e. `false`, but the source treats
the falsy empty string as undeclared and falls back to the `.json`
suffix check, returning `true`. -/
theorem claim_C10_isJsonFile_counterexample :
    get noGlob stLang (some "p/a.json") none = .ok (some dLang) ∧
    dLang.meta.bind (fun m => m.language) = some "" ∧
    (("" : String) == "json") = false ∧
    isJsonFile noGlob stLang "p/a.json" = .ok true :=
  ⟨rfl, rfl, rfl, rfl⟩

/-- C10 as amended: when the matched definition declares a non-empty
`meta.language`, `isJsonFile` returns whether it equals `json`;
otherwise — no match, no declared language, or an empty language — it
returns whether the path's literal suffix is `.json`; it always yields a
boolean. -/
theorem claim_C10_isJsonFile_amended (isM : String → List String → Bool)
    (st : FileTypeState) (fp : String) :
    (∀ ft l, get isM st (some fp) none = .ok (some ft) →
      ft.meta.bind (fun m => m.language) = some l → l ≠ "" →
      isJsonFile isM st fp = .ok (l == "json")) ∧
    (∀ ft, get isM st (some fp) none = .ok (some ft) →
      ft.meta.bind (fun m => m.language) = some "" →
      isJsonFile isM st fp = .ok (strEndsWith fp ".json")) ∧
    (∀ ft, get isM st (some fp) none = .ok (some ft) →
      ft.meta.bind (fun m => m.language) = none →
      isJsonFile isM st fp = .ok (strEndsWith fp ".json")) ∧
    (get isM st (some fp) none = .ok none →
      isJsonFile isM st fp = .ok (strEndsWith fp ".json")) := by
  refine ⟨?_, ?_, ?_, ?_⟩
  · intro ft l hres hlang hne
    have hb : (l != "") = true := by simpa using hne
    simp [isJsonFile, hres, hlang, hb]
  · intro ft hres hlang
    simp [isJsonFile, hres, hlang]
  · intro ft hres hlang
    simp [isJsonFile, hres, hlang]
  · intro hres
    simp [isJsonFile, hres]

/-- Witness for the amended C10 (spec Example 5): a matched definition
declaring `meta.language` `plaintext` classifies `p/a.json` as not
JSON. -/
theorem claim_C10_isJsonFile_amended_witness :
    isJsonFile noGlob stPlain "p/a.json" = .ok (("plaintext" : String) == "json") :=
  (claim_C10_isJsonFile_amended noGlob stPlain "p/a.json").1 dPlain "plaintext"
    rfl rfl (by decide)

end MCProjectCore
